import Mathlib

/-!
Verification of the rustache templating engine against its specification.

The repository's `src/build.rs` provides the `Builder` context-population
surface (`insert_static`, `insert_bool`, `create_data_map`); we embed it
directly.  The render engine (parser boundary, evaluator, escaper) is
described by the specification; the claims about it are settled against a
model built from the specification's words.
-/

set_option autoImplicit false

namespace Rustache

/-- The tagged-union data model bound to template names (spec §3, source
`Data` with constructors `Static`, `Bool`, `Vector`, `Map`; tests add
lambdas via `insert_lambda`).  A callable is side-effect-capable: we model
the caller-owned mutable external state (spec §9: counters captured by a
lambda across invocations) as a `Nat` threaded through the render pass, so
a callable maps its input text and the current state to output text and a
new state.  A pure callable ignores and returns the state unchanged. -/
inductive Data where
  | Static (s : String)
  | Bool (b : Bool)
  | Vector (v : List (List (String × Data)))
  | Map (m : List (String × Data))
  | Lambda (f : String → Nat → String × Nat)

/-- A scope: a name-to-value mapping (spec §3 `Scope`). -/
abbrev Scope := List (String × Data)

/-- Lookup in an association-list map: first binding of the key wins
(insertion keeps at most one binding per key, see `hmInsert`). -/
def hmLookup {α : Type} (m : List (String × α)) (k : String) : Option α :=
  match m with
  | [] => none
  | (k', v) :: rest => if k' = k then some v else hmLookup rest k

/-- Insert into an association-list map with `HashMap::insert` semantics:
the new binding replaces any previous binding of the same key. -/
def hmInsert {α : Type} (m : List (String × α)) (k : String) (v : α) :
    List (String × α) :=
  (k, v) :: m.filter (fun p => p.1 != k)

/-- The keys of an association-list map. -/
def hmKeys {α : Type} (m : List (String × α)) : List String :=
  m.map Prod.fst

/-- `Builder` from `src/build.rs`: wraps a `HashMap<String, Data>`. -/
structure Builder where
  data : List (String × Data)

/-- `Builder::new()` (`src/build.rs` lines 10–14): an empty map. -/
def Builder.new : Builder := ⟨[]⟩

/-- `Builder::insert_static` (`src/build.rs` lines 16–20): bind `key` to
`Static(value)`, replacing any previous binding. -/
def Builder.insert_static (b : Builder) (key value : String) : Builder :=
  ⟨hmInsert b.data key (Data.Static value)⟩

/-- `Builder::insert_bool` (`src/build.rs` lines 22–26): bind `key` to
`Bool(value)`, replacing any previous binding. -/
def Builder.insert_bool (b : Builder) (key : String) (value : Bool) : Builder :=
  ⟨hmInsert b.data key (Data.Bool value)⟩

/-- `Builder::create_data_map` (`src/build.rs` lines 28–39): for each tag
in the tag set, look its value up in `data` (`find_equiv`), defaulting to
the empty string (`unwrap_or(&"")`), and insert the pair into a fresh map. -/
def create_data_map (tags : List String) (data : List (String × String)) :
    List (String × String) :=
  tags.foldl (fun vm tag => hmInsert vm tag ((hmLookup data tag).getD "")) []

/-- One builder operation, for stating invariants over arbitrary call
sequences on a `Builder`. -/
inductive BOp where
  | stat (k v : String)
  | flag (k : String) (b : Bool)

/-- Apply one builder operation. -/
def applyOp (b : Builder) : BOp → Builder
  | BOp.stat k v => b.insert_static k v
  | BOp.flag k v => b.insert_bool k v

/-- Apply a sequence of builder operations starting from `Builder::new()`. -/
def applyOps (ops : List BOp) : Builder :=
  ops.foldl applyOp Builder.new

/-! ### The render engine, modelled from the specification

The render engine itself (tokenizer boundary, evaluator, escaper,
delimiter state) is not part of the sources here; only its tests are.
The definitions below model it from the specification (spec §2–§4.3). -/

/-- Modelled from the spec: the Delimiter State (spec §3), a pair of
open/close tag markers, default double-brace markers. -/
structure Delims where
  odelim : String
  cdelim : String

/-- The opening brace character. -/
def lbrace : Char := Char.ofNat 123

/-- The closing brace character. -/
def rbrace : Char := Char.ofNat 125

/-- Modelled from the spec: the default delimiters (spec §3). -/
def defaultDelims : Delims :=
  ⟨String.mk [lbrace, lbrace], String.mk [rbrace, rbrace]⟩

/-- `startsWith pat cs`: `pat` is an initial segment of `cs`. -/
def startsWith : List Char → List Char → Bool
  | [], _ => true
  | _ :: _, [] => false
  | p :: ps, c :: cs => p == c && startsWith ps cs

/-- Split `cs` at the first occurrence of `pat`: the text before it and the
text after it, or `none` when `pat` does not occur. -/
def splitFirst (pat : List Char) : List Char → Option (List Char × List Char)
  | [] => none
  | c :: cs =>
    if startsWith pat (c :: cs) then some ([], (c :: cs).drop pat.length)
    else
      match splitFirst pat cs with
      | some (pre, post) => some (c :: pre, post)
      | none => none

/-- Drop leading spaces. -/
def dropSpaces : List Char → List Char
  | [] => []
  | c :: cs => if c == ' ' then dropSpaces cs else c :: cs

/-- Trim spaces around a tag name. -/
def trimName (cs : List Char) : String :=
  String.mk (dropSpaces (dropSpaces cs.reverse).reverse)

/-- Split a delimiter-change payload at its first space into the new open
and close markers. -/
def splitSpace (cs : List Char) : List Char × List Char :=
  match splitFirst [' '] cs with
  | some (a, b) => (a, dropSpaces b)
  | none => (cs, [])

/-- Modelled from the spec: the token kinds produced at the
tokenizer/parser boundary (spec §2): text run, variable tag
(escaped or raw), section open/close, inverted-section open,
comment, partial reference, delimiter change. -/
inductive Tok where
  | text (s : String)
  | vtag (name : String) (escaped : Bool)
  | secOpen (name : String)
  | invOpen (name : String)
  | secClose (name : String)
  | comm
  | inclT (name : String)
  | setd (o c : String)

/-- Map a tag sigil character to its token constructor. -/
def tagOf (sig : Char) (name : String) : Tok :=
  if sig == '#' then Tok.secOpen name
  else if sig == '^' then Tok.invOpen name
  else if sig == '/' then Tok.secClose name
  else if sig == '!' then Tok.comm
  else if sig == '>' then Tok.inclT name
  else Tok.vtag name false

/-- Modelled from the spec: the tokenizer half of the external parser
(spec §6 `parse(template_text, delimiters)`), which the core consumes.
Scans for the current open marker, reads the tag sigil and body up to the
close marker, and handles in-stream delimiter changes (spec §4.2).  Each
token is paired with the exact source text it was read from, so a section
body can later be recovered verbatim (spec §4.2: section lambdas receive
the literal, unrendered inner substring).  Unterminated tags degrade to
literal text; the claims never exercise that corner. -/
def tokenize (d : Delims) : Nat → List Char → List (Tok × List Char)
  | 0, _ => []
  | _ + 1, [] => []
  | fuel + 1, cs =>
    match splitFirst d.odelim.data cs with
    | none => [(Tok.text (String.mk cs), cs)]
    | some (pre, rest) =>
      let pretoks : List (Tok × List Char) :=
        if pre.isEmpty then [] else [(Tok.text (String.mk pre), pre)]
      match rest with
      | [] => pretoks
      | c :: r2 =>
        if c == lbrace then
          match splitFirst (rbrace :: d.cdelim.data) r2 with
          | some (nm, r3) =>
            pretoks ++ (Tok.vtag (trimName nm) false,
              d.odelim.data ++ c :: (nm ++ rbrace :: d.cdelim.data)) ::
              tokenize d fuel r3
          | none =>
            pretoks ++ [(Tok.text (String.mk (d.odelim.data ++ rest)),
              d.odelim.data ++ rest)]
        else if c == '=' then
          match splitFirst ('=' :: d.cdelim.data) r2 with
          | some (content, r3) =>
            let p := splitSpace content
            pretoks ++ (Tok.setd (String.mk p.1) (String.mk p.2),
              d.odelim.data ++ c :: (content ++ '=' :: d.cdelim.data)) ::
              tokenize ⟨String.mk p.1, String.mk p.2⟩ fuel r3
          | none =>
            pretoks ++ [(Tok.text (String.mk (d.odelim.data ++ rest)),
              d.odelim.data ++ rest)]
        else if c == '#' || c == '^' || c == '/' || c == '!' || c == '>' || c == '&' then
          match splitFirst d.cdelim.data r2 with
          | some (nm, r3) =>
            pretoks ++ (tagOf c (trimName nm),
              d.odelim.data ++ c :: (nm ++ d.cdelim.data)) ::
              tokenize d fuel r3
          | none =>
            pretoks ++ [(Tok.text (String.mk (d.odelim.data ++ rest)),
              d.odelim.data ++ rest)]
        else
          match splitFirst d.cdelim.data (c :: r2) with
          | some (nm, r3) =>
            pretoks ++ (Tok.vtag (trimName nm) true,
              d.odelim.data ++ (nm ++ d.cdelim.data)) ::
              tokenize d fuel r3
          | none =>
            pretoks ++ [(Tok.text (String.mk (d.odelim.data ++ rest)),
              d.odelim.data ++ rest)]

/-- Modelled from the spec: the template nodes consumed by the evaluator
(spec §2): text run, variable tag, section (with its literal inner source
text recorded for lambda invocation), inverted section, partial
reference, comment, delimiter change. -/
inductive Node where
  | text (s : String)
  | vtag (name : String) (escaped : Bool)
  | sec (name : String) (inverted : Bool) (raw : String) (inner : List Node)
  | inclN (name : String)
  | comm
  | setd (o c : String)

/-- Modelled from the spec: the tree-building half of the external parser.
Nests tokens between a section open and its close into a section node,
recording the raw source text between the tags (spec §4.2).  Returns the
nodes built, the source text consumed, the close tag that ended this
level (with its source text), and the remaining tokens. -/
def buildNodes :
    Nat → List (Tok × List Char) →
      List Node × List Char × Option (String × List Char) × List (Tok × List Char)
  | 0, ts => ([], [], none, ts)
  | _ + 1, [] => ([], [], none, [])
  | fuel + 1, (t, src) :: rest =>
    match t with
    | Tok.secClose n => ([], [], some (n, src), rest)
    | Tok.secOpen n =>
      match buildNodes fuel rest with
      | (inner, rawInner, closeInfo, rest') =>
        let closeSrc := match closeInfo with
          | some p => p.2
          | none => []
        match buildNodes fuel rest' with
        | (sibs, rawSibs, ci, rest'') =>
          (Node.sec n false (String.mk rawInner) inner :: sibs,
           src ++ rawInner ++ closeSrc ++ rawSibs, ci, rest'')
    | Tok.invOpen n =>
      match buildNodes fuel rest with
      | (inner, rawInner, closeInfo, rest') =>
        let closeSrc := match closeInfo with
          | some p => p.2
          | none => []
        match buildNodes fuel rest' with
        | (sibs, rawSibs, ci, rest'') =>
          (Node.sec n true (String.mk rawInner) inner :: sibs,
           src ++ rawInner ++ closeSrc ++ rawSibs, ci, rest'')
    | Tok.text s =>
      match buildNodes fuel rest with
      | (sibs, raw, ci, rest') => (Node.text s :: sibs, src ++ raw, ci, rest')
    | Tok.vtag n e =>
      match buildNodes fuel rest with
      | (sibs, raw, ci, rest') => (Node.vtag n e :: sibs, src ++ raw, ci, rest')
    | Tok.comm =>
      match buildNodes fuel rest with
      | (sibs, raw, ci, rest') => (Node.comm :: sibs, src ++ raw, ci, rest')
    | Tok.inclT n =>
      match buildNodes fuel rest with
      | (sibs, raw, ci, rest') => (Node.inclN n :: sibs, src ++ raw, ci, rest')
    | Tok.setd o c =>
      match buildNodes fuel rest with
      | (sibs, raw, ci, rest') => (Node.setd o c :: sibs, src ++ raw, ci, rest')

/-- Modelled from the spec: the external parser interface
`parse(template_text, delimiters)` (spec §6), used for the initial
template and for every lambda-result re-parse. -/
def parse (d : Delims) (s : String) : List Node :=
  let toks := tokenize d (s.length + 1) s.data
  (buildNodes (toks.length + 1) toks).1

/-- Modelled from the spec: the Escaper's per-character rule (spec §4.3). -/
def escapeChar (c : Char) : String :=
  if c == '&' then "&amp;"
  else if c == '<' then "&lt;"
  else if c == '>' then "&gt;"
  else if c == '"' then "&quot;"
  else String.mk [c]

/-- Modelled from the spec: the Escaper (spec §4.3), applied to the final
stringified value of an escaped variable tag, never to literal text runs
or raw-tag output. -/
def escapeHtml (s : String) : String :=
  String.join (s.data.map escapeChar)

/-- Modelled from the spec: name resolution over the context stack
(spec §4.1 `resolve`): innermost scope first, first match wins. -/
def resolve (stack : List Scope) (n : String) : Option Data :=
  match stack with
  | [] => none
  | sc :: rest =>
    match hmLookup sc n with
    | some v => some v
    | none => resolve rest n

/-- Modelled from the spec: section-gating truthiness (spec §4.1
`truthy`): booleans by value, sequences by non-emptiness, scopes,
non-empty-or-not static strings, and callables always true. -/
def truthy : Data → Bool
  | Data.Bool b => b
  | Data.Vector xs => !xs.isEmpty
  | Data.Map _ => true
  | Data.Static _ => true
  | Data.Lambda _ => true

/-- Modelled from the spec: stringification of a resolved value in
variable position (spec §4.2): a static string is itself, a boolean is
rendered deterministically, a sequence or scope is non-stringifiable
(an error condition, spec §7). -/
def stringifyOpt : Data → Option String
  | Data.Static s => some s
  | Data.Bool b => some (if b then "true" else "false")
  | _ => none

/-- Modelled from the spec: the evaluator's running state — the output
text written so far (spec §6: written incrementally in document order),
the caller-owned mutable callable state (spec §5: callables are
side-effect-capable, tests exploit mutable external counters), and the
error flag for reportable errors (spec §7: output already written is
left intact). -/
structure EvalSt where
  out : String
  cnt : Nat
  err : Bool

/-- Modelled from the spec: the Evaluator (spec §4.2).  Consumes the node
sequence once, left to right.  Text is emitted verbatim; an escaped
variable tag resolves its name, expands a callable by invoking it with
empty input and re-parsing its result under the current delimiters
against the current context stack and then escapes, a raw tag skips
escaping; an unresolved name emits nothing; a section resolves its name
and either skips (falsy), invokes a callable with the literal inner
source text and re-parses without escaping, iterates a sequence pushing
one frame per element, pushes a scope as one frame, or evaluates once
with no new frame (true boolean / static); an inverted section evaluates
its body once with no new frame iff the name is unresolved or falsy.
The fuel bounds re-parse recursion (spec §9: a bounded recursion depth
guard for lambda re-parsing). -/
def evalN : Nat → Delims → List Scope → List Node → EvalSt → EvalSt
  | 0, _, _, _, st => st
  | _ + 1, _, _, [], st => st
  | fuel + 1, d, stack, node :: rest, st =>
    match node with
    | Node.text s => evalN fuel d stack rest { st with out := st.out ++ s }
    | Node.comm => evalN fuel d stack rest st
    | Node.inclN _ => evalN fuel d stack rest st
    | Node.setd o c => evalN fuel ⟨o, c⟩ stack rest st
    | Node.vtag name escaped =>
      let st' :=
        match resolve stack name with
        | none => st
        | some (Data.Lambda f) =>
          let r := f "" st.cnt
          let sub := evalN fuel d stack (parse d r.1)
            { out := "", cnt := r.2, err := false }
          { out := st.out ++ (if escaped then escapeHtml sub.out else sub.out),
            cnt := sub.cnt, err := st.err || sub.err }
        | some v =>
          match stringifyOpt v with
          | some s =>
            { st with out := st.out ++ (if escaped then escapeHtml s else s) }
          | none => { st with err := true }
      evalN fuel d stack rest st'
    | Node.sec name true _ inner =>
      let st' :=
        match resolve stack name with
        | none => evalN fuel d stack inner st
        | some v => if truthy v then st else evalN fuel d stack inner st
      evalN fuel d stack rest st'
    | Node.sec name false raw inner =>
      let st' :=
        match resolve stack name with
        | none => st
        | some (Data.Lambda f) =>
          let r := f raw st.cnt
          let sub := evalN fuel d stack (parse d r.1)
            { out := "", cnt := r.2, err := false }
          { out := st.out ++ sub.out, cnt := sub.cnt, err := st.err || sub.err }
        | some (Data.Vector xs) =>
          xs.foldl (fun acc sc => evalN fuel d (sc :: stack) inner acc) st
        | some (Data.Map m) => evalN fuel d (m :: stack) inner st
        | some (Data.Bool b) => if b then evalN fuel d stack inner st else st
        | some (Data.Static _) => evalN fuel d stack inner st
      evalN fuel d stack rest st'

/-- Modelled from the spec: the render entry point (spec §6): parse the
template with the default delimiters and evaluate the nodes against a
stack holding the caller's root scope, starting from empty output and
the initial callable state. -/
def render (template : String) (scope : Scope) : String :=
  (evalN 1000 defaultDelims [scope] (parse defaultDelims template)
    { out := "", cnt := 0, err := false }).out

theorem hmLookup_hmInsert_self {α : Type} (m : List (String × α)) (k : String)
    (v : α) : hmLookup (hmInsert m k v) k = some v := by
  simp [hmInsert, hmLookup]

theorem hmLookup_filter_ne {α : Type} (m : List (String × α)) (k k' : String)
    (hne : k ≠ k') :
    hmLookup (m.filter (fun p => p.1 != k)) k' = hmLookup m k' := by
  induction m with
  | nil => rfl
  | cons hd tl ih =>
    obtain ⟨hk, hv⟩ := hd
    by_cases h : hk = k
    · subst h
      simp [hmLookup, List.filter_cons, hne, ih]
    · simp [hmLookup, List.filter_cons, h, ih]

theorem hmLookup_hmInsert_ne {α : Type} (m : List (String × α)) (k k' : String)
    (v : α) (hne : k ≠ k') :
    hmLookup (hmInsert m k v) k' = hmLookup m k' := by
  simp [hmInsert, hmLookup, hne, hmLookup_filter_ne m k k' hne]

theorem hmKeys_filter_not_mem {α : Type} (m : List (String × α)) (k : String) :
    k ∉ hmKeys (m.filter (fun p => p.1 != k)) := by
  intro hmem
  simp only [hmKeys, List.mem_map, List.mem_filter, bne_iff_ne] at hmem
  obtain ⟨p, ⟨_, hne⟩, hfst⟩ := hmem
  exact hne hfst

theorem hmKeys_filter_sublist {α : Type} (m : List (String × α)) (k : String) :
    hmKeys (m.filter (fun p => p.1 != k)) = (hmKeys m).filter (fun s => s != k) := by
  induction m with
  | nil => rfl
  | cons hd tl ih =>
    by_cases h : hd.1 = k
    · simp [hmKeys, List.filter_cons, h] at ih ⊢
      exact ih
    · simp [hmKeys, List.filter_cons, h] at ih ⊢
      exact ih

theorem hmKeys_nodup_hmInsert {α : Type} (m : List (String × α)) (k : String)
    (v : α) (h : (hmKeys m).Nodup) : (hmKeys (hmInsert m k v)).Nodup := by
  have hfil : (hmKeys (m.filter (fun p => p.1 != k))).Nodup := by
    rw [hmKeys_filter_sublist]
    exact h.filter _
  have hnotmem := hmKeys_filter_not_mem m k
  simp only [hmInsert, hmKeys, List.map_cons, List.nodup_cons]
  exact And.intro (fun hx => hnotmem hx) hfil

theorem applyOp_keys_nodup (b : Builder) (op : BOp)
    (h : (hmKeys b.data).Nodup) : (hmKeys (applyOp b op).data).Nodup := by
  cases op with
  | stat k v => exact hmKeys_nodup_hmInsert b.data k (Data.Static v) h
  | flag k v => exact hmKeys_nodup_hmInsert b.data k (Data.Bool v) h

theorem applyOps_keys_nodup (ops : List BOp) :
    (hmKeys (applyOps ops).data).Nodup := by
  suffices h : ∀ b : Builder, (hmKeys b.data).Nodup →
      (hmKeys (ops.foldl applyOp b).data).Nodup by
    exact h Builder.new List.nodup_nil
  induction ops with
  | nil => intro b hb; exact hb
  | cons op rest ih =>
    intro b hb
    exact ih (applyOp b op) (applyOp_keys_nodup b op hb)

theorem hmLookup_isSome_iff_mem_keys {α : Type} (m : List (String × α))
    (k : String) : (hmLookup m k).isSome ↔ k ∈ hmKeys m := by
  induction m with
  | nil => simp [hmLookup, hmKeys]
  | cons hd tl ih =>
    obtain ⟨hk, hv⟩ := hd
    by_cases h : hk = k
    · subst h
      simp [hmLookup, hmKeys]
    · simp only [hmLookup, hmKeys, List.map_cons, List.mem_cons, if_neg h] at ih ⊢
      rw [ih]
      exact ⟨Or.inr, fun hor => hor.resolve_left (fun he => h he.symm)⟩

theorem create_data_map_lookup (tags : List String)
    (data : List (String × String)) (k : String) :
    hmLookup (create_data_map tags data) k =
      if k ∈ tags then some ((hmLookup data k).getD "") else none := by
  suffices h : ∀ vm : List (String × String),
      hmLookup
        (tags.foldl (fun vm tag => hmInsert vm tag ((hmLookup data tag).getD "")) vm) k =
        if k ∈ tags then some ((hmLookup data k).getD "") else hmLookup vm k by
    simpa [create_data_map, hmLookup] using h []
  induction tags with
  | nil => intro vm; simp
  | cons t ts ih =>
    intro vm
    simp only [List.foldl_cons]
    rw [ih]
    by_cases hts : k ∈ ts
    · simp [hts, List.mem_cons]
    · by_cases htk : t = k
      · subst htk
        simp [hts, hmLookup_hmInsert_self]
      · rw [hmLookup_hmInsert_ne _ _ _ _ htk]
        simp [hts, List.mem_cons, Ne.symm htk]

/-- C7: a name absent from the data never produces an error:
`create_data_map` maps each tag that has no entry in the data map to the
empty string, so the operation is total and silent on missing names. -/
theorem create_data_map_missing_is_empty (tags : List String)
    (data : List (String × String)) (tag : String)
    (htag : tag ∈ tags) (hmiss : hmLookup data tag = none) :
    hmLookup (create_data_map tags data) tag = some "" := by
  rw [create_data_map_lookup, if_pos htag, hmiss]
  rfl

/-- Witness for C7 at tags `["a"]`, empty data. -/
theorem create_data_map_missing_is_empty_witness :
    "a" ∈ ["a"] ∧ hmLookup ([] : List (String × String)) "a" = none ∧
      hmLookup (create_data_map ["a"] []) "a" = some "" :=
  ⟨by simp, rfl, create_data_map_missing_is_empty ["a"] [] "a" (by simp) rfl⟩

/-- C9: the key set of `create_data_map tags data` is exactly `tags`:
each tag is a key, bound to the data's value for it when present (empty
string otherwise), and no key outside `tags` appears. -/
theorem create_data_map_keys_exact (tags : List String)
    (data : List (String × String)) (k : String) :
    hmLookup (create_data_map tags data) k =
      (if k ∈ tags then some ((hmLookup data k).getD "") else none)
    ∧ (k ∈ hmKeys (create_data_map tags data) ↔ k ∈ tags) := by
  refine ⟨create_data_map_lookup tags data k, ?_⟩
  rw [← hmLookup_isSome_iff_mem_keys, create_data_map_lookup]
  by_cases h : k ∈ tags <;> simp [h]

/-- C8: every builder-produced scope maps each name to at most one value
(the key list is duplicate-free after any operation sequence from
`Builder::new()`), and on duplicate key the last insertion wins: after
`insert_static k v` (resp. `insert_bool k b`) the scope binds `k` to
exactly the newly inserted value. -/
theorem builder_scope_unique_last_wins :
    (∀ ops : List BOp, (hmKeys (applyOps ops).data).Nodup)
    ∧ (∀ (b : Builder) (k v : String),
        hmLookup (b.insert_static k v).data k = some (Data.Static v))
    ∧ (∀ (b : Builder) (k : String) (bv : Bool),
        hmLookup (b.insert_bool k bv).data k = some (Data.Bool bv)) :=
  ⟨applyOps_keys_nodup,
   fun b k v => hmLookup_hmInsert_self b.data k (Data.Static v),
   fun b k bv => hmLookup_hmInsert_self b.data k (Data.Bool bv)⟩

/-- C10: `insert_static` and `insert_bool` modify only the binding of the
key they are given — any other key's binding is unchanged — and
`Builder::new()` has no bindings at all. -/
theorem builder_insert_frame (b : Builder) (k k' v : String) (bv : Bool)
    (hne : k ≠ k') :
    hmLookup (b.insert_static k v).data k' = hmLookup b.data k'
    ∧ hmLookup (b.insert_bool k bv).data k' = hmLookup b.data k'
    ∧ ∀ k'' : String, hmLookup Builder.new.data k'' = none :=
  ⟨hmLookup_hmInsert_ne b.data k k' (Data.Static v) hne,
   hmLookup_hmInsert_ne b.data k k' (Data.Bool bv) hne,
   fun _ => rfl⟩

/-- Witness for C10 at a two-key builder. -/
theorem builder_insert_frame_witness :
    ("a" : String) ≠ "b"
    ∧ (hmLookup ((Builder.new.insert_static "b" "x").insert_static "a" "y").data "b" =
          hmLookup (Builder.new.insert_static "b" "x").data "b"
      ∧ hmLookup ((Builder.new.insert_static "b" "x").insert_bool "a" true).data "b" =
          hmLookup (Builder.new.insert_static "b" "x").data "b"
      ∧ ∀ k'' : String, hmLookup Builder.new.data k'' = none) :=
  ⟨by simp,
   builder_insert_frame (Builder.new.insert_static "b" "x") "a" "b" "y" true (by simp)⟩

/-- C1: rendering "Hello, \x7b\x7blambda\x7d\x7d!" with planet bound to
Static "world" and lambda bound to a callable returning the text
"\x7b\x7bplanet\x7d\x7d" invokes the callable with empty input (the
callable here returns the tag text only on empty input), re-parses the
returned text against the current delimiters, evaluates the resulting
nodes against the current context stack, and produces exactly
"Hello, world!". -/
theorem lambda_interpolation_expansion :
    render "Hello, \x7b\x7blambda\x7d\x7d!"
      [("planet", Data.Static "world"),
       ("lambda", Data.Lambda (fun inp n =>
         (if inp = "" then "\x7b\x7bplanet\x7d\x7d" else "XX", n)))] =
      "Hello, world!" := rfl

/-- C2: callables are invoked once per occurrence in document order with
no caching: a callable returning an incrementing counter starting at 1
renders "\x7b\x7blambda\x7d\x7d == \x7b\x7b\x7blambda\x7d\x7d\x7d ==
\x7b\x7blambda\x7d\x7d" as "1 == 2 == 3", and a section callable
wrapping its input in "__" renders two sections as
"__FILE__ != __LINE__". -/
theorem lambda_no_caching :
    render "\x7b\x7blambda\x7d\x7d == \x7b\x7b\x7blambda\x7d\x7d\x7d == \x7b\x7blambda\x7d\x7d"
      [("lambda", Data.Lambda (fun _ n => (toString (n + 1), n + 1)))] =
      "1 == 2 == 3"
    ∧ render "\x7b\x7b#lambda\x7d\x7dFILE\x7b\x7b/lambda\x7d\x7d != \x7b\x7b#lambda\x7d\x7dLINE\x7b\x7b/lambda\x7d\x7d"
      [("lambda", Data.Lambda (fun txt n => ("__" ++ txt ++ "__", n)))] =
      "__FILE__ != __LINE__" :=
  ⟨rfl, rfl⟩

/-- C3: a section whose name resolves to a callable invokes it with the
literal, unrendered inner template substring: with x bound to
Static "Error!" and a section callable answering "yes" iff its input is
the raw tag text "\x7b\x7bx\x7d\x7d", the render yields "<yes>". -/
theorem section_lambda_receives_raw_text :
    render "<\x7b\x7b#lambda\x7d\x7d\x7b\x7bx\x7d\x7d\x7b\x7b/lambda\x7d\x7d>"
      [("x", Data.Static "Error!"),
       ("lambda", Data.Lambda (fun txt n =>
         (if txt = "\x7b\x7bx\x7d\x7d" then "yes" else "no", n)))] =
      "<yes>" := rfl

/-- C4: a section callable's returned text is re-parsed under the current
delimiters and evaluated against the current context stack with no new
frame pushed, and emitted without HTML escaping: with planet bound to
Static "Earth" and a section callable returning input, then the planet
tag, then input again, the render yields "<-Earth->". -/
theorem section_lambda_expansion :
    render "<\x7b\x7b#lambda\x7d\x7d-\x7b\x7b/lambda\x7d\x7d>"
      [("planet", Data.Static "Earth"),
       ("lambda", Data.Lambda (fun txt n =>
         (txt ++ "\x7b\x7bplanet\x7d\x7d" ++ txt, n)))] =
      "<-Earth->" := rfl

/-- C5: an escaped variable tag HTML-escapes the final stringified value
(ampersand, less-than and greater-than are replaced by their entities)
while a raw triple tag and literal text runs are emitted without
escaping: with a callable returning ">", the render yields "<&gt;>". -/
theorem lambda_escaping :
    escapeHtml "&" = "&amp;" ∧ escapeHtml "<" = "&lt;" ∧ escapeHtml ">" = "&gt;"
    ∧ render "<\x7b\x7blambda\x7d\x7d\x7b\x7b\x7blambda\x7d\x7d\x7d"
        [("lambda", Data.Lambda (fun _ n => (">", n)))] =
        "<&gt;>" :=
  ⟨rfl, rfl, rfl, rfl⟩

/-- C6: a callable is always truthy for section gating, so an inverted
section on a callable-bound name renders nothing regardless of the
callable: for every callable f, truthy holds of it and the render
yields "<>". -/
theorem inverted_section_lambda_truthy :
    (∀ f : String → Nat → String × Nat, truthy (Data.Lambda f) = true)
    ∧ ∀ f : String → Nat → String × Nat,
        render "<\x7b\x7b^lambda\x7d\x7d\x7b\x7bstatic\x7d\x7d\x7b\x7b/lambda\x7d\x7d>"
          [("static", Data.Static "static"), ("lambda", Data.Lambda f)] =
          "<>" :=
  ⟨fun _ => rfl, fun _ => rfl⟩

end Rustache
